import Mathlib

/-!
Shallow embedding of the core object store of tilemaker
(`src/include/osm_store.h`): the `UsedWays` bitset, the
`RelationScanStore` reverse index, the `RelationStore` deque, and the
geometry helpers of `OSMStore` (`fillPoints`, `llListPolygon`,
`wayListLinestring`).

Machine integers become `Nat`/`Int`; the `std::vector<bool>` bitset is a
`List Bool` with `Option`-valued indexing so that an out-of-bounds access
of the C++ code shows up as `none`; `std::map` becomes a first-match
association list (key-based lookup is order-independent, so the sortedness
of `std::map` is immaterial); a C++ exception path becomes `Except`.
-/

/-- Way/relation identifier (`WayID`), an unsigned integer. -/
abbrev WayID := Nat

/-- A fixed-point projected coordinate pair (`LatpLon`), two 32-bit
integers scaled by `10^7`. -/
structure LatpLon where
  latp : Int
  lon : Int
deriving DecidableEq, Repr

/-- Geometry point with exact rational coordinates, standing for the
`boost::geometry` point `(lon/10^7, latp/10^7)`. -/
abbrev GeomPoint := ℚ × ℚ

/-- `Linestring`: a sequence of points. -/
abbrev Linestring := List GeomPoint

/-- `Polygon`: one outer ring and a list of inner rings. -/
structure Polygon where
  outer : List GeomPoint
  inners : List (List GeomPoint)
deriving DecidableEq, Repr

/-- `MultiPolygon`: a sequence of polygons. -/
abbrev MultiPolygon := List Polygon

/-- `UsedWays` (spec: UsedMembers): bitset of chain ids referenced by at
least one group.  `usedList` models the `std::vector<bool>` contents,
`capacity` its reserved capacity, `inited` the idempotence guard. -/
structure UsedWays where
  usedList : List Bool
  capacity : Nat
  inited : Bool
deriving DecidableEq, Repr

/-- `UsedWays::reserve`: returns unchanged once `inited`; otherwise sets
`inited` and reserves capacity with the sizing heuristic (`numNodes/8`
in compact mode, `2^31` otherwise; `std::vector::reserve` never
shrinks, hence the `max`). -/
def UsedWays.reserve (s : UsedWays) (compact : Bool) (numNodes : Nat) : UsedWays :=
  if s.inited then s
  else
    { s with inited := true,
             capacity := max s.capacity (if compact then numNodes / 8 else 2 ^ 31) }

/-- `UsedWays::insert`: when `wayid > usedList.size()` resize to
`wayid + 256` (new slots `false`), then write `usedList[wayid] = true`.
The write is total here: `none` means the C++ code indexes out of
bounds. -/
def UsedWays.insert (s : UsedWays) (wayid : WayID) : Option UsedWays :=
  let l := if wayid > s.usedList.length
    then s.usedList ++ List.replicate (wayid + 256 - s.usedList.length) false
    else s.usedList
  if wayid < l.length then some { s with usedList := l.set wayid true } else none

/-- `UsedWays::at`: `false` when `wayid > usedList.size()`, else read
`usedList[wayid]` (`none` means the C++ code reads out of bounds). -/
def UsedWays.atId (s : UsedWays) (wayid : WayID) : Option Bool :=
  if wayid > s.usedList.length then some false else s.usedList.get? wayid

/-- `UsedWays::clear`: empty the bitset; `inited` is untouched. -/
def UsedWays.clear (s : UsedWays) : UsedWays :=
  { s with usedList := [] }

/-- First-match association lookup, modelling `std::map::find`. -/
def assocFind {κ α : Type} [DecidableEq κ] : List (κ × α) → κ → Option α
  | [], _ => none
  | (k', v) :: rest, k => if k' = k then some v else assocFind rest k

/-- `relationsForWays[wayid].emplace_back(relid)`: append to the entry for
the key, default-inserting the entry first when absent
(`std::map::operator[]` followed by `emplace_back`). -/
def assocAppend {κ : Type} [DecidableEq κ] : List (κ × List Nat) → κ → Nat → List (κ × List Nat)
  | [], k, g => [(k, [g])]
  | (k', v) :: rest, k, g =>
      if k' = k then (k', v ++ [g]) :: rest else (k', v) :: assocAppend rest k g

/-- `std::map::operator[]` used as a read: return the entry
(default-inserting an empty one when the key is absent) together with the
updated map. -/
def assocGetOrInsert {κ α : Type} [DecidableEq κ] [Inhabited α] :
    List (κ × α) → κ → α × List (κ × α)
  | [], k => (default, [(k, default)])
  | (k', v) :: rest, k =>
      if k' = k then (v, (k', v) :: rest)
      else
        let r := assocGetOrInsert rest k
        (r.1, (k', v) :: r.2)

/-- `std::map::operator[] = v` write, modelling `relationTags[relid] = tags`. -/
def assocSet {κ α : Type} [DecidableEq κ] : List (κ × α) → κ → α → List (κ × α)
  | [], k, v => [(k, v)]
  | (k', v') :: rest, k, v =>
      if k' = k then (k', v) :: rest else (k', v') :: assocSet rest k v

/-- Tag snapshot: key → value map (`boost::container::flat_map`). -/
abbrev tag_map_t := List (String × String)

/-- `RelationScanStore` (spec: GroupScanIndex): chain id → owning group
ids, plus group id → tag snapshot. -/
structure RelationScanStore where
  relationsForWays : List (WayID × List WayID)
  relationTags : List (WayID × tag_map_t)
deriving DecidableEq, Repr

/-- `RelationScanStore::relation_contains_way` (spec: record_membership). -/
def RelationScanStore.relation_contains_way (s : RelationScanStore) (relid wayid : WayID) :
    RelationScanStore :=
  { s with relationsForWays := assocAppend s.relationsForWays wayid relid }

/-- `RelationScanStore::store_relation_tags` (spec: store_tags). -/
def RelationScanStore.store_relation_tags (s : RelationScanStore) (relid : WayID)
    (tags : tag_map_t) : RelationScanStore :=
  { s with relationTags := assocSet s.relationTags relid tags }

/-- `RelationScanStore::way_in_any_relations` (spec: chain_in_any_group). -/
def RelationScanStore.way_in_any_relations (s : RelationScanStore) (wayid : WayID) : Bool :=
  (assocFind s.relationsForWays wayid).isSome

/-- `RelationScanStore::relations_for_way` (spec: groups_for_chain):
`return relationsForWays[wayid]` — `operator[]` default-inserts, so the
call yields the list and the updated store. -/
def RelationScanStore.relations_for_way (s : RelationScanStore) (wayid : WayID) :
    List WayID × RelationScanStore :=
  let r := assocGetOrInsert s.relationsForWays wayid
  (r.1, { s with relationsForWays := r.2 })

/-- `RelationScanStore::get_relation_tag` (spec: tag_value / groupTag). -/
def RelationScanStore.get_relation_tag (s : RelationScanStore) (relid : WayID)
    (key : String) : String :=
  match assocFind s.relationTags relid with
  | none => ""
  | some tags =>
    match assocFind tags key with
    | none => ""
    | some v => v

/-- `RelationScanStore::clear`. -/
def RelationScanStore.clear (_ : RelationScanStore) : RelationScanStore := ⟨[], []⟩

/-- A freshly constructed (or cleared) `RelationScanStore`. -/
def RelationScanStore.empty : RelationScanStore := ⟨[], []⟩

/-- A scan pass: a sequence of `relation_contains_way(relid, wayid)` calls
applied in order to the empty store. -/
def RelationScanStore.runScan (calls : List (WayID × WayID)) : RelationScanStore :=
  calls.foldl (fun s p => s.relation_contains_way p.1 p.2) RelationScanStore.empty

/-- `RelationStore::wayid_vector_t`. -/
abbrev wayid_vector_t := List WayID

/-- `RelationStore::relation_entry_t`: (outer way ids, inner way ids). -/
abbrev relation_entry_t := wayid_vector_t × wayid_vector_t

/-- `RelationStore::element_t`: a relation id with its entry. -/
abbrev element_t := WayID × relation_entry_t

/-- Write `src` into `l` element by element starting at position `i`,
modelling `std::copy` into a resized deque. -/
def listCopyAt {α : Type} : List α → Nat → List α → List α
  | l, _, [] => l
  | l, i, x :: xs => listCopyAt (l.set i x) (i + 1) xs

/-- `RelationStore::insert_front` (spec: PendingGroupStore.insert_many):
`i = size()`, `resize(i + new_relations.size())` (new slots
default-constructed), then `std::copy` the new entries to positions
`i, i+1, ...`. -/
def RelationStore.insert_front (s : List element_t) (new_relations : List element_t) :
    List element_t :=
  listCopyAt (s ++ List.replicate new_relations.length ((0, ([], [])) : element_t))
    s.length new_relations

/-- `RelationStore::size`. -/
def RelationStore.size (s : List element_t) : Nat := s.length

/-- `OSMStore`'s member initializer `bool require_integrity = true;`. -/
def OSMStore.require_integrity_default : Bool := true

/-- `boost::geometry::make<Point>(it->lon/10000000.0, it->latp/10000000.0)`,
with exact rational coordinates in place of doubles. -/
def mkPoint (ll : LatpLon) : GeomPoint :=
  ((ll.lon : ℚ) / 10000000, (ll.latp : ℚ) / 10000000)

/-- `OSMStore::fillPoints`: push each resolved point in order; an
unresolvable id (`none`, the `std::out_of_range` thrown by the node
lookup the iterator performs) aborts the construction when
`require_integrity` holds and is skipped otherwise. -/
def OSMStore.fillPoints (require_integrity : Bool) :
    List (Option LatpLon) → Except Unit (List GeomPoint)
  | [] => Except.ok []
  | some ll :: rest =>
      (OSMStore.fillPoints require_integrity rest).map (fun ps => mkPoint ll :: ps)
  | none :: rest =>
      if require_integrity then Except.error () else OSMStore.fillPoints require_integrity rest

/-- One term of the shoelace formula. -/
def cross (p q : GeomPoint) : ℚ := p.1 * q.2 - q.1 * p.2

/-- Twice the signed area of a ring: the shoelace sum over consecutive
point pairs. -/
def shoelace : List GeomPoint → ℚ
  | p :: q :: rest => cross p q + shoelace (q :: rest)
  | _ => 0

/-- Modelled from the spec: the ring-closure half of
`boost::geometry::correct` (external library, not in src/) — "append the
first point if the last does not match". -/
def closeRing (r : List GeomPoint) : List GeomPoint :=
  match r with
  | [] => []
  | p :: _ => if r.getLast? = some p then r else r ++ [p]

/-- Modelled from the spec: the orientation half of
`boost::geometry::correct` for an outer ring — reverse the ring when its
winding is not the canonical one (canonical here: `shoelace ≤ 0`,
boost's default clockwise outer ring). -/
def orientOuter (r : List GeomPoint) : List GeomPoint :=
  if 0 < shoelace r then r.reverse else r

/-- Modelled from the spec: `boost::geometry::correct` on a polygon
(external library, not in src/) — close every ring, canonical winding
for the outer ring, the opposite winding for inner rings. -/
def bgCorrect (poly : Polygon) : Polygon :=
  { outer := orientOuter (closeRing poly.outer),
    inners := poly.inners.map (fun r =>
      if shoelace (closeRing r) < 0 then (closeRing r).reverse else closeRing r) }

/-- `OSMStore::llListPolygon` (spec: chainToPolygon): fill the outer ring
from the id sequence, then `boost::geometry::correct` the polygon. -/
def OSMStore.llListPolygon (require_integrity : Bool) (ids : List (Option LatpLon)) :
    Except Unit Polygon :=
  (OSMStore.fillPoints require_integrity ids).map
    (fun ps => bgCorrect { outer := ps, inners := [] })

/-- `OSMStore::llListLinestring` (spec: chainToLinestring). -/
def OSMStore.llListLinestring (require_integrity : Bool) (ids : List (Option LatpLon)) :
    Except Unit Linestring :=
  OSMStore.fillPoints require_integrity ids

/-- `OSMStore::wayListLinestring`: an empty linestring for an empty
multipolygon, else the outer-ring points of the first polygon appended
one by one. -/
def OSMStore.wayListLinestring (mp : MultiPolygon) : Linestring :=
  match mp with
  | [] => []
  | p0 :: _ => p0.outer.foldl (fun out pt => out ++ [pt]) []

/-- Setting the position right after a prefix overwrites the element
that follows the prefix. -/
lemma set_append_cons {α : Type} (x d : α) (s t : List α) :
    (s ++ d :: t).set s.length x = s ++ x :: t := by
  induction s with
  | nil => rfl
  | cons a s ih =>
    show a :: ((s ++ d :: t).set s.length x) = a :: (s ++ x :: t)
    rw [ih]

/-- Copying `src` over a block of placeholder slots appended after `s`
yields `s ++ src`. -/
lemma listCopyAt_fill {α : Type} (d : α) :
    ∀ (src s : List α),
      listCopyAt (s ++ List.replicate src.length d) s.length src = s ++ src := by
  intro src
  induction src with
  | nil => intro s; simp [listCopyAt]
  | cons x xs ih =>
    intro s
    show listCopyAt ((s ++ List.replicate (x :: xs).length d).set s.length x)
        (s.length + 1) xs = s ++ x :: xs
    rw [List.length_cons, List.replicate_succ, set_append_cons]
    have h1 : s ++ x :: List.replicate xs.length d
        = (s ++ [x]) ++ List.replicate xs.length d := by simp
    have h2 : s.length + 1 = (s ++ [x]).length := by simp
    rw [h1, h2, ih (s ++ [x])]
    simp

/-- Folding append-one-point over a list reproduces the list after the
accumulator. -/
lemma foldl_append_singleton {α : Type} (l : List α) :
    ∀ acc : List α, l.foldl (fun out pt => out ++ [pt]) acc = acc ++ l := by
  induction l with
  | nil => intro acc; simp
  | cons x xs ih =>
    intro acc
    show xs.foldl (fun out pt => out ++ [pt]) (acc ++ [x]) = acc ++ x :: xs
    rw [ih (acc ++ [x])]
    simp

/-- C1: the spec requires `UsedMembers.at(w) = true` after
`UsedMembers.insert(w)` for every `w`, including `w` equal to the current
bitset size; but `insert`'s growth guard is `wayid > usedList.size()`, so
when `wayid` equals the size no resize happens and the write
`usedList[wayid] = true` is out of bounds (here: `insert` returns `none`
on the fresh store at `wayid = 0 = size`). -/
theorem usedWays_insert_at_current_size_out_of_bounds :
    UsedWays.insert ⟨[], 0, false⟩ 0 = none := rfl

/-- C3: `UsedWays.at` returns `false` only for `id` strictly greater than
the bitset size (second conjunct), but at `id` equal to the size its
guard `wayid > usedList.size()` fails and it reads `usedList[id]` out of
bounds (first conjunct: the total embedding yields `none`, not
`some false`), so the out-of-bounds branch is reachable. -/
theorem usedWays_atId_boundary :
    UsedWays.atId ⟨[], 0, false⟩ 0 = none ∧
    UsedWays.atId ⟨[], 0, false⟩ 1 = some false := by
  constructor <;> rfl

/-- C5: `UsedWays.reserve` is idempotent — after a first call, a second
call with arbitrary (possibly different) arguments leaves the whole
state, in particular `capacity` and `inited`, unchanged. -/
theorem usedWays_reserve_idempotent (s : UsedWays) (c1 c2 : Bool) (n1 n2 : Nat) :
    (s.reserve c1 n1).reserve c2 n2 = s.reserve c1 n1 := by
  by_cases h : s.inited = true
  · simp [UsedWays.reserve, h]
  · simp [UsedWays.reserve, h]

/-- C6: `RelationStore::insert_front` appends — the pre-existing entries
are unchanged in place, the new entries follow in their given order, and
the size is the old size plus the number of new entries. -/
theorem relationStore_insert_front_appends (s e : List element_t) :
    (RelationStore.insert_front s e).take s.length = s ∧
    (RelationStore.insert_front s e).drop s.length = e ∧
    RelationStore.size (RelationStore.insert_front s e)
      = RelationStore.size s + e.length := by
  have h : RelationStore.insert_front s e = s ++ e := by
    unfold RelationStore.insert_front
    exact listCopyAt_fill _ e s
  rw [h]
  exact ⟨List.take_left s e, List.drop_left s e, by simp [RelationStore.size]⟩

/-- C10: `OSMStore::wayListLinestring` yields the empty linestring on an
empty multipolygon, and otherwise exactly the outer-ring points of the
first polygon in order (inner rings and later polygons ignored). -/
theorem wayListLinestring_first_outer :
    OSMStore.wayListLinestring [] = [] ∧
    ∀ (p : Polygon) (rest : List Polygon),
      OSMStore.wayListLinestring (p :: rest) = p.outer := by
  refine ⟨rfl, fun p rest => ?_⟩
  show p.outer.foldl (fun out pt => out ++ [pt]) [] = p.outer
  simpa using foldl_append_singleton p.outer []

/-- Lookup past a prefix in which the key does not occur. -/
lemma assocFind_append_of_none {κ α : Type} [DecidableEq κ] (m l : List (κ × α)) (k : κ)
    (h : assocFind m k = none) : assocFind (m ++ l) k = assocFind l k := by
  induction m with
  | nil => rfl
  | cons p rest ih =>
    obtain ⟨k', v⟩ := p
    have hh : (if k' = k then some v else assocFind rest k) = none := h
    by_cases hk : k' = k
    · rw [if_pos hk] at hh; cases hh
    · rw [if_neg hk] at hh
      show (if k' = k then some v else assocFind (rest ++ l) k) = assocFind l k
      rw [if_neg hk]
      exact ih hh

/-- `operator[]` on an absent key default-inserts at the end. -/
lemma agoi_of_none {κ α : Type} [DecidableEq κ] [Inhabited α] (m : List (κ × α)) (k : κ)
    (h : assocFind m k = none) :
    assocGetOrInsert m k = ((default : α), m ++ [(k, (default : α))]) := by
  induction m with
  | nil => rfl
  | cons p rest ih =>
    obtain ⟨k', v⟩ := p
    by_cases hk : k' = k
    · simp [assocFind, hk] at h
    · simp only [assocFind, hk, if_false] at h
      simp [assocGetOrInsert, hk, ih h]

/-- `operator[]` on a present key returns its value and keeps the map. -/
lemma agoi_of_some {κ α : Type} [DecidableEq κ] [Inhabited α] (m : List (κ × α)) (k : κ) (v : α)
    (h : assocFind m k = some v) : assocGetOrInsert m k = (v, m) := by
  induction m with
  | nil => simp [assocFind] at h
  | cons p rest ih =>
    obtain ⟨k', v'⟩ := p
    by_cases hk : k' = k
    · simp only [assocFind, hk, if_true, Option.some.injEq] at h
      simp [assocGetOrInsert, hk, h]
    · simp only [assocFind, hk, if_false] at h
      simp [assocGetOrInsert, hk, ih h]

/-- `operator[]`'s first component is the stored value, or the default. -/
lemma agoi_fst {κ α : Type} [DecidableEq κ] [Inhabited α] (m : List (κ × α)) (k : κ) :
    (assocGetOrInsert m k).1 = (assocFind m k).getD default := by
  induction m with
  | nil => rfl
  | cons p rest ih =>
    obtain ⟨k', v⟩ := p
    by_cases hk : k' = k
    · simp [assocGetOrInsert, assocFind, hk]
    · simp [assocGetOrInsert, assocFind, hk, ih]

/-- C2 counterexample: `groups_for_chain` is not state-preserving — on the
empty store, `chain_in_any_group 0` is `false` before the
`groups_for_chain 0` call and `true` after it (`std::map::operator[]`
default-inserts the queried key). -/
theorem relations_for_way_mutates :
    RelationScanStore.way_in_any_relations ⟨[], []⟩ 0 = false ∧
    RelationScanStore.way_in_any_relations
      ((RelationScanStore.relations_for_way ⟨[], []⟩ 0).2) 0 = true := by
  constructor <;> rfl

/-- C2 (amended): `groups_for_chain(chainId)` returns the empty sequence,
not an error, for a chainId with no recorded membership — but then it
default-inserts an empty entry, so `chain_in_any_group(chainId)` is
`true` afterwards even when it was `false` before; only for chainIds
that already have an entry is the store left unchanged (and the stored
list returned). -/
theorem relations_for_way_query (s : RelationScanStore) (c : WayID) :
    (assocFind s.relationsForWays c = none →
      (s.relations_for_way c).1 = [] ∧
      ((s.relations_for_way c).2).way_in_any_relations c = true) ∧
    ∀ v, assocFind s.relationsForWays c = some v → s.relations_for_way c = (v, s) := by
  constructor
  · intro h
    have hg := agoi_of_none s.relationsForWays c h
    have hf := assocFind_append_of_none s.relationsForWays [(c, ([] : List WayID))] c h
    constructor
    · show (assocGetOrInsert s.relationsForWays c).1 = []
      rw [hg]
      rfl
    · show (assocFind (assocGetOrInsert s.relationsForWays c).2 c).isSome = true
      rw [hg]
      show (assocFind (s.relationsForWays ++ [(c, ([] : List WayID))]) c).isSome = true
      rw [hf]
      simp [assocFind]
  · intro v h
    have hg := agoi_of_some s.relationsForWays c v h
    show ((assocGetOrInsert s.relationsForWays c).1,
      { s with relationsForWays := (assocGetOrInsert s.relationsForWays c).2 }) = (v, s)
    rw [hg]

/-- C2 witness: the amended statement evaluated on the empty store at
chain id 0 and on a one-entry store at its recorded chain id 3. -/
theorem relations_for_way_query_witness :
    ((RelationScanStore.mk [] []).relations_for_way 0).1 = [] ∧
    ((RelationScanStore.mk [] []).relations_for_way 0).2.way_in_any_relations 0 = true ∧
    (RelationScanStore.mk [(3, [7])] []).relations_for_way 3
      = ([7], RelationScanStore.mk [(3, [7])] []) := by
  refine ⟨?_, ?_, ?_⟩
  · exact ((relations_for_way_query ⟨[], []⟩ 0).1 rfl).1
  · exact ((relations_for_way_query ⟨[], []⟩ 0).1 rfl).2
  · exact (relations_for_way_query ⟨[(3, [7])], []⟩ 3).2 [7] rfl

/-- Appending a group id to a chain's entry: lookup at that chain sees
the old list with the id appended. -/
lemma assocAppend_find_self (m : List (WayID × List WayID)) (k g : WayID) :
    assocFind (assocAppend m k g) k = some ((assocFind m k).getD [] ++ [g]) := by
  induction m with
  | nil => simp [assocAppend, assocFind]
  | cons p rest ih =>
    obtain ⟨k', v⟩ := p
    by_cases hk : k' = k
    · simp [assocAppend, assocFind, hk]
    · simp [assocAppend, assocFind, hk, ih]

/-- Appending to one chain's entry leaves every other chain's lookup
unchanged. -/
lemma assocAppend_find_other (m : List (WayID × List WayID)) (k g c : WayID)
    (h : c ≠ k) : assocFind (assocAppend m k g) c = assocFind m c := by
  induction m with
  | nil => simp [assocAppend, assocFind, Ne.symm h]
  | cons p rest ih =>
    obtain ⟨k', v⟩ := p
    by_cases hk : k' = k
    · subst hk
      simp [assocAppend, assocFind, Ne.symm h]
    · simp [assocAppend, assocFind, hk, ih]

/-- Running a batch of `relation_contains_way` calls appends, per chain,
the group ids recorded for that chain, in call order. -/
lemma runScan_findD (calls : List (WayID × WayID)) :
    ∀ (s : RelationScanStore) (c : WayID),
      (assocFind ((calls.foldl (fun s p => s.relation_contains_way p.1 p.2) s).relationsForWays)
          c).getD []
        = (assocFind s.relationsForWays c).getD []
          ++ (calls.filter (fun p => p.2 == c)).map Prod.fst := by
  induction calls with
  | nil => intro s c; simp
  | cons q rest ih =>
    intro s c
    obtain ⟨r, w⟩ := q
    show (assocFind ((rest.foldl (fun s p => s.relation_contains_way p.1 p.2)
        (s.relation_contains_way r w)).relationsForWays) c).getD [] = _
    rw [ih (s.relation_contains_way r w) c]
    have hrw : (s.relation_contains_way r w).relationsForWays
        = assocAppend s.relationsForWays w r := rfl
    by_cases hw : w = c
    · subst hw
      rw [hrw, assocAppend_find_self]
      simp [List.filter]
    · rw [hrw, assocAppend_find_other _ _ _ _ (Ne.symm hw)]
      have hb : (w == c) = false := by simp [hw]
      simp [List.filter, hb]

/-- C7: after any sequence of `record_membership(groupId, chainId)` calls
on a fresh index, `groups_for_chain(chainId)` returns exactly the group
ids recorded for that chainId, in call (discovery) order, duplicates
preserved. -/
theorem relations_for_way_after_runScan (calls : List (WayID × WayID)) (c : WayID) :
    ((RelationScanStore.runScan calls).relations_for_way c).1
      = (calls.filter (fun p => p.2 == c)).map Prod.fst := by
  show (assocGetOrInsert (RelationScanStore.runScan calls).relationsForWays c).1 = _
  rw [agoi_fst]
  have h := runScan_findD calls RelationScanStore.empty c
  unfold RelationScanStore.runScan
  have hd : ((assocFind (RelationScanStore.empty).relationsForWays c).getD [] : List WayID)
      = [] := rfl
  rw [hd] at h
  simpa using h

/-- C8: `groupTag(groupId, key)` yields the empty string both when the
group id has no stored tag snapshot and when it has one that lacks the
key; neither case is an error. -/
theorem get_relation_tag_empty_on_absent (s : RelationScanStore) (relid : WayID)
    (key : String) :
    (assocFind s.relationTags relid = none → s.get_relation_tag relid key = "") ∧
    ∀ tags, assocFind s.relationTags relid = some tags → assocFind tags key = none →
      s.get_relation_tag relid key = "" := by
  constructor
  · intro h
    simp [RelationScanStore.get_relation_tag, h]
  · intro tags h hk
    simp [RelationScanStore.get_relation_tag, h, hk]

/-- C8 witness: a store whose only tag snapshot is for group 5 — lookup
of unknown group 7, and of known group 5 with an absent key, both give
the empty string. -/
theorem get_relation_tag_empty_on_absent_witness :
    RelationScanStore.get_relation_tag ⟨[], [(5, [("a", "b")])]⟩ 7 "a" = "" ∧
    RelationScanStore.get_relation_tag ⟨[], [(5, [("a", "b")])]⟩ 5 "x" = "" := by
  constructor
  · exact (get_relation_tag_empty_on_absent ⟨[], [(5, [("a", "b")])]⟩ 7 "a").1 rfl
  · exact (get_relation_tag_empty_on_absent ⟨[], [(5, [("a", "b")])]⟩ 5 "x").2
      [("a", "b")] rfl (by simp [assocFind])

/-- With integrity enforcement on, any unresolvable point id aborts the
fill with the propagated error. -/
lemma fillPoints_true_error (ids : List (Option LatpLon)) (h : none ∈ ids) :
    OSMStore.fillPoints true ids = Except.error () := by
  induction ids with
  | nil => simp at h
  | cons o rest ih =>
    cases o with
    | none => rfl
    | some ll =>
      have hr : none ∈ rest := by
        rcases List.mem_cons.mp h with hh | hh
        · cases hh
        · exact hh
      show (OSMStore.fillPoints true rest).map (fun ps => mkPoint ll :: ps)
          = Except.error ()
      rw [ih hr]
      rfl

/-- With integrity enforcement off, unresolvable point ids are omitted
and the fill returns exactly the resolvable points, in order. -/
lemma fillPoints_false_ok (ids : List (Option LatpLon)) :
    OSMStore.fillPoints false ids
      = Except.ok (ids.filterMap (fun o => o.map mkPoint)) := by
  induction ids with
  | nil => rfl
  | cons o rest ih =>
    cases o with
    | none =>
      show OSMStore.fillPoints false rest = _
      rw [ih]
      rfl
    | some ll =>
      show (OSMStore.fillPoints false rest).map (fun ps => mkPoint ll :: ps) = _
      rw [ih]
      rfl

/-- C4: point resolution is governed by the integrity flag, whose default
is `true`: with the flag on, a sequence containing an unresolvable id
fails with the propagated error; with it off, the result is built from
exactly the resolvable points, in order, without failing. -/
theorem fillPoints_integrity_policy (ids : List (Option LatpLon)) :
    OSMStore.require_integrity_default = true ∧
    (none ∈ ids → OSMStore.fillPoints true ids = Except.error ()) ∧
    OSMStore.fillPoints false ids
      = Except.ok (ids.filterMap (fun o => o.map mkPoint)) :=
  ⟨rfl, fillPoints_true_error ids, fillPoints_false_ok ids⟩

/-- C4 witness: a two-id sequence whose second id is unresolvable —
enforced mode errors, best-effort mode keeps the one resolvable point. -/
theorem fillPoints_integrity_policy_witness :
    OSMStore.fillPoints true [some ⟨0, 0⟩, none] = Except.error () ∧
    OSMStore.fillPoints false [some ⟨0, 0⟩, none]
      = Except.ok ([some (⟨0, 0⟩ : LatpLon), none].filterMap (fun o => o.map mkPoint)) :=
  ⟨(fillPoints_integrity_policy [some ⟨0, 0⟩, none]).2.1 (by simp),
   (fillPoints_integrity_policy [some ⟨0, 0⟩, none]).2.2⟩

/-- Shoelace sum after appending one point: the old sum plus the term
from the old last point to the appended one. -/
lemma shoelace_concat : ∀ (l : List GeomPoint) (a : GeomPoint),
    shoelace (l ++ [a])
      = shoelace l + ((l.getLast?.map (fun b => cross b a)).getD 0) := by
  intro l
  induction l with
  | nil => intro a; simp [shoelace]
  | cons p rest ih =>
    intro a
    cases rest with
    | nil => simp [shoelace]
    | cons q rest2 =>
      show cross p q + shoelace ((q :: rest2) ++ [a]) = _
      rw [ih a, List.getLast?_cons_cons]
      show _ = cross p q + shoelace (q :: rest2)
          + (((q :: rest2).getLast?.map (fun b => cross b a)).getD 0)
      ring

/-- Reversing a ring negates its shoelace sum. -/
lemma shoelace_reverse : ∀ l : List GeomPoint, shoelace l.reverse = - shoelace l := by
  intro l
  induction l with
  | nil => simp [shoelace]
  | cons p rest ih =>
    cases rest with
    | nil => simp [shoelace]
    | cons q rest2 =>
      rw [List.reverse_cons, shoelace_concat, ih, List.getLast?_reverse]
      show - shoelace (q :: rest2)
          + ((Option.map (fun b => cross b p) (some q)).getD 0) = _
      show _ = - (cross p q + shoelace (q :: rest2))
      simp [cross]

/-- Closing a nonempty ring yields a nonempty ring whose first point
equals its last point. -/
lemma closeRing_spec (r : List GeomPoint) (h : r ≠ []) :
    closeRing r ≠ [] ∧ (closeRing r).head? = (closeRing r).getLast? := by
  cases r with
  | nil => exact absurd rfl h
  | cons p rest =>
    by_cases hc : (p :: rest).getLast? = some p
    · have he : closeRing (p :: rest) = p :: rest := by
        show (if (p :: rest).getLast? = some p then p :: rest else (p :: rest) ++ [p]) = _
        rw [if_pos hc]
      rw [he]
      exact ⟨by simp, by rw [hc]; rfl⟩
    · have he : closeRing (p :: rest) = (p :: rest) ++ [p] := by
        show (if (p :: rest).getLast? = some p then p :: rest else (p :: rest) ++ [p]) = _
        rw [if_neg hc]
      rw [he]
      refine ⟨by simp, ?_⟩
      rw [List.getLast?_concat]
      rfl

/-- C9: `llListPolygon` (chainToPolygon) on a resolvable point sequence
whose first point differs from its last yields a polygon whose outer
ring is nonempty, closed (first point equals last point), and in the
canonical winding (`shoelace ≤ 0`). -/
theorem llListPolygon_closed_canonical (ri : Bool) (ids : List (Option LatpLon))
    (ps : List GeomPoint) (hok : OSMStore.fillPoints ri ids = Except.ok ps)
    (hne : ps.head? ≠ ps.getLast?) :
    ∃ poly, OSMStore.llListPolygon ri ids = Except.ok poly ∧
      poly.outer ≠ [] ∧ poly.outer.head? = poly.outer.getLast? ∧
      shoelace poly.outer ≤ 0 := by
  have hps : ps ≠ [] := by
    intro hh
    subst hh
    exact hne rfl
  have hc := closeRing_spec ps hps
  refine ⟨bgCorrect ⟨ps, []⟩, ?_, ?_, ?_, ?_⟩
  · show (OSMStore.fillPoints ri ids).map (fun ps => bgCorrect ⟨ps, []⟩) = _
    rw [hok]
    rfl
  · show orientOuter (closeRing ps) ≠ []
    unfold orientOuter
    by_cases h0 : 0 < shoelace (closeRing ps)
    · rw [if_pos h0]
      simpa using hc.1
    · rw [if_neg h0]
      exact hc.1
  · show (orientOuter (closeRing ps)).head? = (orientOuter (closeRing ps)).getLast?
    unfold orientOuter
    by_cases h0 : 0 < shoelace (closeRing ps)
    · rw [if_pos h0, List.head?_reverse, List.getLast?_reverse]
      exact hc.2.symm
    · rw [if_neg h0]
      exact hc.2
  · show shoelace (orientOuter (closeRing ps)) ≤ 0
    unfold orientOuter
    by_cases h0 : 0 < shoelace (closeRing ps)
    · rw [if_pos h0, shoelace_reverse]
      linarith
    · rw [if_neg h0]
      exact le_of_not_lt h0

/-- C9 witness: three points forming an open right-angle chain — the
produced polygon's outer ring is nonempty, closed, and canonically
wound. -/
theorem llListPolygon_closed_canonical_witness :
    ∃ poly, OSMStore.llListPolygon true
        [some ⟨0, 0⟩, some ⟨0, 10000000⟩, some ⟨10000000, 10000000⟩]
      = Except.ok poly ∧
      poly.outer ≠ [] ∧ poly.outer.head? = poly.outer.getLast? ∧
      shoelace poly.outer ≤ 0 :=
  llListPolygon_closed_canonical true
    [some ⟨0, 0⟩, some ⟨0, 10000000⟩, some ⟨10000000, 10000000⟩]
    [mkPoint ⟨0, 0⟩, mkPoint ⟨0, 10000000⟩, mkPoint ⟨10000000, 10000000⟩]
    rfl (by simp [mkPoint])
